import Mathlib

/-!
Shallow embedding of the `it` game server (crates `it-server` and `it-core`).

The embedding mirrors `src/it-server/src/main.rs` and the message types of
`src/it-core/src/lib.rs`:

* `Server` mirrors `struct Server` (its `lobbies`, `tcp_clients` and
  `udp_client_addrs` hash maps are modelled as association lists; the
  iteration order of a Rust `HashMap` is unspecified, which the run
  relations below account for by allowing an arbitrary permutation of the
  lobby list before every scan).
* Lobby ids are fresh UUID-v4 strings in the source; they are modelled as
  distinct naturals drawn from a counter.
* The `f32` coordinates of `Position` are modelled by their IEEE-754 bit
  patterns as naturals; the literal `0.0f32` has bit pattern `0`.
* An `UnboundedSender<String>` is modelled as a `Queue`: a list of already
  enqueued messages plus a `closed` flag (`send` on a closed channel
  returns `Err`, which the source discards with `unwrap_or(())`).
* Wire encoding (`IntoResponse` / `serde_json`) is abstracted: queues hold
  `ServerEvent` values rather than their JSON lines, and the UDP decode
  outcome of a datagram is passed to the loop explicitly.
* A Rust panic (`Option::unwrap` on `None`) is modelled as an explicit
  `panicked` flag / `Except.error`, since a panic kills the running task.
-/

abbrev ClientId := String

abbrev LobbyId := Nat

abbrev Addr := String

/-- Structure `Position` from `it-core`: `f32` fields modelled by IEEE-754 bit patterns. -/
structure Position where
  x : Nat
  y : Nat
deriving DecidableEq, Repr

/-- Structure `Player` from `it-core`. -/
structure Player where
  id : ClientId
  it_count : Nat
  position : Position
deriving DecidableEq, Repr

/-- Enum `ClientEvent` from `it-core` (`Join`, `UdpUpgrade`, `PosUpdate`). -/
inductive ClientEvent where
  | Join : ClientEvent
  | UdpUpgrade (client_id : ClientId) : ClientEvent
  | PosUpdate (client_id : ClientId) (x y : Nat) : ClientEvent
deriving DecidableEq, Repr

/-- Enum `ServerEvent` from `it-core` (`Start`, `Wait`, `Accept`, `Leave`, `PosUpdate`). -/
inductive ServerEvent where
  | Start (lobby_id : LobbyId) (client_id : ClientId) (players : List Player) : ServerEvent
  | Wait : ServerEvent
  | Accept (lobby_id : LobbyId) (client_id : ClientId) : ServerEvent
  | Leave (client_id : ClientId) : ServerEvent
  | PosUpdate (client_id : ClientId) (x y : Nat) : ServerEvent
deriving DecidableEq, Repr

/-- One `mpsc::UnboundedSender<String>` endpoint: enqueued messages plus a
closed flag.  `send` on a closed channel fails (the source discards the
failure with `unwrap_or(())`). -/
structure Queue where
  closed : Bool
  msgs : List ServerEvent
deriving DecidableEq, Repr

/-- The `lobbies: HashMap<LobbyId, Vec<Player>>` field, as an association list. -/
abbrev Lobbies := List (LobbyId × List Player)

/-- Mirrors `struct Server` from `it-server/src/main.rs` (the `udp_tx` handle is
modelled by returning produced datagrams from the relay functions). -/
structure Server where
  lobbies : Lobbies
  tcp_clients : List (ClientId × Queue)
  udp_client_addrs : List (ClientId × Addr)
deriving DecidableEq, Repr

def emptyServer : Server := ⟨[], [], []⟩

/-- Models `HashMap::get`, on the association-list model (first matching key). -/
def getKV {κ α : Type} [DecidableEq κ] (k : κ) : List (κ × α) → Option α
  | [] => none
  | e :: rest => if e.1 = k then some e.2 else getKV k rest

/-- Replace the value bound to an existing key, leaving other entries alone. -/
def setKV {κ α : Type} [DecidableEq κ] (k : κ) (v : α) : List (κ × α) → List (κ × α)
  | [] => []
  | e :: rest => if e.1 = k then (k, v) :: setKV k v rest else e :: setKV k v rest

/-- Models `HashMap::insert`: overwrite the binding if the key is present, otherwise
add a new entry. -/
def insertKV {κ α : Type} [DecidableEq κ] (k : κ) (v : α) (m : List (κ × α)) :
    List (κ × α) :=
  if m.any (fun e => e.1 = k) then setKV k v m else m ++ [(k, v)]

/-- Models `HashMap::remove`, as a map (drops every entry with the key). -/
def eraseKV {κ α : Type} [DecidableEq κ] (k : κ) : List (κ × α) → List (κ × α)
  | [] => []
  | e :: rest => if e.1 = k then eraseKV k rest else e :: eraseKV k rest

/-- Constant `const MAX_LOBBY_SIZE: usize = 2`. -/
def MAX_LOBBY_SIZE : Nat := 2

/-- The `Player` value pushed on join:
`Player { id, it_count: 0, position: Position { x: 0.0, y: 0.0 } }`. -/
def newPlayer (cid : ClientId) : Player :=
  { id := cid, it_count := 0, position := { x := 0, y := 0 } }

/-- The scan inside `Server::assign_to_lobby`: walk the lobby list in
iteration order; push onto the first lobby with fewer than
`MAX_LOBBY_SIZE` members and return its id. -/
def assignScan (cid : ClientId) : Lobbies → Option (Lobbies × LobbyId)
  | [] => none
  | (lid, ps) :: rest =>
    if ps.length < MAX_LOBBY_SIZE then
      some ((lid, ps ++ [newPlayer cid]) :: rest, lid)
    else
      match assignScan cid rest with
      | some (rest', l) => some ((lid, ps) :: rest', l)
      | none => none

/-- Function `Server::assign_to_lobby`: use the first lobby with capacity, otherwise
insert a fresh lobby (fresh UUID modelled by `fresh`) containing only the
new player. -/
def assign_to_lobby (ls : Lobbies) (cid : ClientId) (fresh : LobbyId) :
    Lobbies × LobbyId :=
  match assignScan cid ls with
  | some r => r
  | none => (insertKV fresh [newPlayer cid] ls, fresh)

/-- Function `Server::remove_from_lobby`: find the first lobby containing the client,
retain the other members, and report `(lobby_id, client_id)`; `none` when no
lobby contains the client. -/
def remove_from_lobby (cid : ClientId) :
    Lobbies → Lobbies × Option (LobbyId × ClientId)
  | [] => ([], none)
  | (lid, ps) :: rest =>
    if ps.any (fun p => p.id == cid) then
      ((lid, ps.filter (fun p => p.id != cid)) :: rest, some (lid, cid))
    else
      let r := remove_from_lobby cid rest
      ((lid, ps) :: r.1, r.2)

/-- Function `Server::is_full` (the source `unwrap`s the lookup; the id just assigned
is always present, modelled with a default). -/
def is_full (ls : Lobbies) (lid : LobbyId) : Bool :=
  MAX_LOBBY_SIZE ≤ ((getKV lid ls).getD []).length

/-- Function `Server::send`: look the client up in `tcp_clients`; missing entry is a
no-op, and a failed channel send (`closed` queue) is discarded by
`unwrap_or(())`.  The Rust signature returns `()`: no error escapes. -/
def Server.send (s : Server) (cid : ClientId) (ev : ServerEvent) : Server :=
  match getKV cid s.tcp_clients with
  | none => s
  | some q =>
    if q.closed then s
    else { s with tcp_clients := setKV cid { q with msgs := q.msgs ++ [ev] } s.tcp_clients }

/-- Function `Server::broadcast`: send the event to every member of the lobby; each
delivery has the same missing-entry / closed-channel semantics as
`Server::send`. -/
def Server.broadcast (s : Server) (lid : LobbyId) (ev : ServerEvent) : Server :=
  match getKV lid s.lobbies with
  | none => s
  | some clients => clients.foldl (fun acc p => acc.send p.id ev) s

/-- The `ClientEvent::Join` arm of `handle_client` (lines 208-238): assign to
a lobby, send `Accept`, then either broadcast `Start` (with each recipient's
own id) to every member of a now-full lobby, or send `Wait` to the joiner. -/
def handleJoin (s : Server) (cid : ClientId) (fresh : LobbyId) : Server :=
  let a := assign_to_lobby s.lobbies cid fresh
  let s1 : Server := { s with lobbies := a.1 }
  let s2 := s1.send cid (ServerEvent.Accept a.2 cid)
  if is_full s2.lobbies a.2 then
    let players := (getKV a.2 s2.lobbies).getD []
    players.foldl (fun acc p => acc.send p.id (ServerEvent.Start a.2 p.id players)) s2
  else
    s2.send cid ServerEvent.Wait

/-- The cleanup block of `handle_client` (lines 247-261): unregister the
client's control queue, remove it from its lobby; when it was in a lobby,
broadcast `Leave` to the (post-removal) members and delete the lobby if it
became empty. -/
def cleanup (s : Server) (cid : ClientId) : Server :=
  let s1 : Server := { s with tcp_clients := eraseKV cid s.tcp_clients }
  let r := remove_from_lobby cid s1.lobbies
  let s2 : Server := { s1 with lobbies := r.1 }
  match r.2 with
  | none => s2
  | some (lid, c) =>
    let s3 := s2.broadcast lid (ServerEvent.Leave c)
    if ((getKV lid s2.lobbies).getD []).isEmpty then
      { s3 with lobbies := eraseKV lid s3.lobbies }
    else s3

/-- The relay loop inside `handle_udp`'s `PosUpdate` arm: for every member of
the sender's lobby other than the sender, look the member's telemetry address
up and push a relay datagram; the lookup is `unwrap`ped, so a missing address
is a panic, modelled by the `true` flag (no further iteration happens). -/
def relayLoop (addrs : List (ClientId × Addr)) (cid : ClientId) (x y : Nat) :
    List Player → List (Addr × ServerEvent) × Bool
  | [] => ([], false)
  | p :: rest =>
    if p.id = cid then relayLoop addrs cid x y rest
    else
      match getKV p.id addrs with
      | none => ([], true)
      | some a =>
        let r := relayLoop addrs cid x y rest
        ((a, ServerEvent.PosUpdate cid x y) :: r.1, r.2)

/-- The `ClientEvent::PosUpdate` arm of `handle_udp` (lines 284-306): find the
sender's lobby and relay to every other member; `(datagrams, panicked)`. -/
def relayPos (s : Server) (cid : ClientId) (x y : Nat) :
    List (Addr × ServerEvent) × Bool :=
  match s.lobbies.find? (fun e => e.2.any (fun p => p.id == cid)) with
  | none => ([], false)
  | some e => relayLoop s.udp_client_addrs cid x y e.2

/-- Dispatch of one decoded UDP datagram (`handle_udp`'s `match event`):
returns the updated server, the produced relay datagrams, and whether the
task panicked. -/
def udpApply (s : Server) (addr : Addr) :
    ClientEvent → Server × List (Addr × ServerEvent) × Bool
  | ClientEvent.UdpUpgrade cid =>
    ({ s with udp_client_addrs := insertKV cid addr s.udp_client_addrs }, [], false)
  | ClientEvent.PosUpdate cid x y =>
    let r := relayPos s cid x y
    (s, r.1, r.2)
  | ClientEvent.Join => (s, [], false)

/-- The receive loop of `handle_udp` over a finite batch of datagrams, each
given with its (serde) decode outcome.  A decode failure is propagated by the
source's `?`, which returns `Err` from `handle_udp` and ends the loop; a
panic inside dispatch likewise kills the task. -/
def udpLoop (s : Server) :
    List (Addr × Except String ClientEvent) →
      Except String (Server × List (Addr × ServerEvent))
  | [] => Except.ok (s, [])
  | (addr, d) :: rest =>
    match d with
    | Except.error e => Except.error e
    | Except.ok ev =>
      let r := udpApply s addr ev
      if r.2.2 then Except.error "panicked: called Option::unwrap on a None value"
      else
        match udpLoop r.1 rest with
        | Except.ok (s2, out2) => Except.ok (s2, r.2.1 ++ out2)
        | Except.error e => Except.error e

/-- Abstract actions of the `Join` arm of `handle_client`, in program order,
used to state where the 2-second grace sleep falls relative to the
`state.write()` guard's lifetime (the guard is dropped at the end of the
match arm). -/
inductive JoinAction where
  | acquireWrite : JoinAction
  | releaseWrite : JoinAction
  | assignToLobby : JoinAction
  | sendAccept : JoinAction
  | sleepSecs (n : Nat) : JoinAction
  | sendStarts : JoinAction
  | sendWait : JoinAction
deriving DecidableEq, Repr

/-- The action trace of the `Join` arm (lines 208-238): acquire the write
lock, assign, send `Accept`; when the lobby is full, sleep 2 seconds and send
the `Start` messages, otherwise send `Wait`; the guard is released when the
arm's scope ends. -/
def joinArmTrace (full : Bool) : List JoinAction :=
  [JoinAction.acquireWrite, JoinAction.assignToLobby, JoinAction.sendAccept] ++
    (if full then [JoinAction.sleepSecs 2, JoinAction.sendStarts] else [JoinAction.sendWait]) ++
    [JoinAction.releaseWrite]

/-- Whether some sleep action in the trace is executed while the write lock is
held (scanning left to right, tracking the lock state). -/
def lockHeldAtSleep : List JoinAction → Bool → Bool
  | [], _ => false
  | JoinAction.acquireWrite :: rest, _ => lockHeldAtSleep rest true
  | JoinAction.releaseWrite :: rest, _ => lockHeldAtSleep rest false
  | JoinAction.sleepSecs _ :: rest, held => held || lockHeldAtSleep rest held
  | _ :: rest, held => lockHeldAtSleep rest held

/-- Control-channel level events: a connection registers its control queue,
a `Join` line runs the `Join` arm, and read-side termination runs cleanup. -/
inductive SEvent where
  | connect (cid : ClientId) : SEvent
  | join (cid : ClientId) : SEvent
  | disconnect (cid : ClientId) : SEvent
deriving DecidableEq, Repr

/-- One control-channel event against the full server state; `n` is the
fresh-lobby-id counter (UUIDs modelled as distinct naturals). -/
def stepServer (s : Server) (n : Nat) : SEvent → Server × Nat
  | SEvent.connect cid =>
    ({ s with tcp_clients := insertKV cid { closed := false, msgs := [] } s.tcp_clients }, n)
  | SEvent.join cid => (handleJoin s cid n, n + 1)
  | SEvent.disconnect cid => (cleanup s cid, n)

/-- Run a list of control-channel events from a state (deterministic: keeps
the lobby list in insertion order, which suffices whenever at most one lobby
exists at each scan). -/
def runEvents (s : Server) (n : Nat) : List SEvent → Server × Nat
  | [] => (s, n)
  | e :: rest =>
    let r := stepServer s n e
    runEvents r.1 r.2 rest

/-- Lobby-level matchmaking events (`assign_to_lobby` / departure). -/
inductive LEvent where
  | assign (cid : ClientId) : LEvent
  | leave (cid : ClientId) : LEvent
deriving DecidableEq, Repr

/-- Models `remove_from_lobby` followed by the caller's garbage collection: delete
the lobby when the removal left it empty (cleanup block, lines 250-259). -/
def removeAndGc (ls : Lobbies) (cid : ClientId) : Lobbies :=
  let r := remove_from_lobby cid ls
  match r.2 with
  | none => r.1
  | some (lid, _) =>
    if ((getKV lid r.1).getD []).isEmpty then eraseKV lid r.1 else r.1

/-- One matchmaking step on the lobby map.  Because the lobbies live in a
Rust `HashMap`, the order in which a scan visits them is unspecified: the
step first replaces the list by an arbitrary permutation of itself, then runs
the source's scan on it.  The counter `n` supplies the fresh lobby id. -/
inductive LStep : Lobbies → Nat → LEvent → Lobbies → Nat → Prop
  | assign {ls ls' ls'' : Lobbies} {n lid : Nat} {cid : ClientId} :
      List.Perm ls ls' → assign_to_lobby ls' cid n = (ls'', lid) →
      LStep ls n (LEvent.assign cid) ls'' (n + 1)
  | leave {ls ls' ls'' : Lobbies} {n : Nat} {cid : ClientId} :
      List.Perm ls ls' → removeAndGc ls' cid = ls'' →
      LStep ls n (LEvent.leave cid) ls'' n

/-- Relation `LRun ls n evs ls' n'`: executing the events `evs` in order from lobby
map `ls` with fresh counter `n` can end in map `ls'` with counter `n'`. -/
inductive LRun : Lobbies → Nat → List LEvent → Lobbies → Nat → Prop
  | nil {ls : Lobbies} {n : Nat} : LRun ls n [] ls n
  | cons {ls ls' ls'' : Lobbies} {n n' n'' : Nat} {e : LEvent} {evs : List LEvent} :
      LStep ls n e ls' n' → LRun ls' n' evs ls'' n'' → LRun ls n (e :: evs) ls'' n''

/-- The lobby containing a client, if any (first in scan order). -/
def lobbyOf (cid : ClientId) (ls : Lobbies) : Option LobbyId :=
  (ls.find? (fun e => e.2.any (fun p => p.id == cid))).map Prod.fst

/-- Counts the `Start` messages for a given lobby in a list of messages. -/
def startsFor (lid : LobbyId) (msgs : List ServerEvent) : Nat :=
  msgs.countP (fun ev =>
    match ev with
    | ServerEvent.Start l _ _ => l == lid
    | _ => false)

/-! ## Helper lemmas about the association-list maps and `Server.send` -/

theorem getKV_setKV_self {κ α : Type} [DecidableEq κ] (k : κ) (v : α) (m : List (κ × α))
    (h : (getKV k m).isSome) : getKV k (setKV k v m) = some v := by
  induction m with
  | nil => simp [getKV] at h
  | cons e rest ih =>
    by_cases he : e.1 = k
    · simp [getKV, setKV, he]
    · simp [getKV, setKV, he] at h ⊢
      exact ih h

theorem getKV_setKV_ne {κ α : Type} [DecidableEq κ] {k k' : κ} (v : α) (m : List (κ × α))
    (h : k' ≠ k) : getKV k' (setKV k v m) = getKV k' m := by
  induction m with
  | nil => simp [setKV]
  | cons e rest ih =>
    by_cases he : e.1 = k
    · have h1 : ¬ k = k' := fun hh => h hh.symm
      have h2 : ¬ e.1 = k' := fun hh => h (hh ▸ he)
      rw [setKV, if_pos he]
      simp only [getKV]
      rw [if_neg h1, if_neg h2, ih]
    · rw [setKV, if_neg he]
      simp only [getKV]
      by_cases he' : e.1 = k'
      · rw [if_pos he', if_pos he']
      · rw [if_neg he', if_neg he', ih]

theorem getKV_eraseKV_self {κ α : Type} [DecidableEq κ] (k : κ) (m : List (κ × α)) :
    getKV k (eraseKV k m) = none := by
  induction m with
  | nil => rfl
  | cons e rest ih =>
    by_cases he : e.1 = k
    · rw [eraseKV, if_pos he]
      exact ih
    · rw [eraseKV, if_neg he]
      simp only [getKV]
      rw [if_neg he]
      exact ih

theorem getKV_eraseKV_ne {κ α : Type} [DecidableEq κ] {k k' : κ} (m : List (κ × α))
    (h : k' ≠ k) : getKV k' (eraseKV k m) = getKV k' m := by
  induction m with
  | nil => rfl
  | cons e rest ih =>
    by_cases he : e.1 = k
    · have h2 : ¬ e.1 = k' := fun hh => h (hh ▸ he)
      rw [eraseKV, if_pos he, ih]
      simp only [getKV]
      rw [if_neg h2]
    · rw [eraseKV, if_neg he]
      simp only [getKV]
      by_cases he' : e.1 = k'
      · rw [if_pos he', if_pos he']
      · rw [if_neg he', if_neg he', ih]

theorem getKV_append_first {κ α : Type} [DecidableEq κ] (pre : List (κ × α)) (k : κ) (v : α)
    (post : List (κ × α)) (h : ∀ e ∈ pre, e.1 ≠ k) :
    getKV k (pre ++ (k, v) :: post) = some v := by
  induction pre with
  | nil => simp [getKV]
  | cons e rest ih =>
    have he : e.1 ≠ k := h e (List.mem_cons_self e rest)
    simp only [List.cons_append, getKV, he, if_neg he]
    exact ih fun x hx => h x (List.mem_cons_of_mem e hx)

theorem insertKV_notmem {κ α : Type} [DecidableEq κ] (k : κ) (v : α) (m : List (κ × α))
    (h : ∀ e ∈ m, e.1 ≠ k) : insertKV k v m = m ++ [(k, v)] := by
  unfold insertKV
  have hany : m.any (fun e => decide (e.1 = k)) = false := by
    simp only [List.any_eq_false, decide_eq_true_eq]
    exact h
  rw [hany]
  simp

theorem send_lobbies (s : Server) (cid : ClientId) (ev : ServerEvent) :
    (s.send cid ev).lobbies = s.lobbies := by
  unfold Server.send
  cases hq : getKV cid s.tcp_clients with
  | none => rfl
  | some q =>
    by_cases hc : q.closed
    · simp [hc]
    · simp [hc]

theorem getKV_send_self (s : Server) (cid : ClientId) (ev : ServerEvent) (q : Queue)
    (hq : getKV cid s.tcp_clients = some q) (hopen : q.closed = false) :
    getKV cid (s.send cid ev).tcp_clients = some { q with msgs := q.msgs ++ [ev] } := by
  unfold Server.send
  rw [hq]
  simp only [hopen, Bool.false_eq_true, if_false]
  exact getKV_setKV_self cid _ s.tcp_clients (by rw [hq]; rfl)

theorem getKV_send_ne (s : Server) {c cid : ClientId} (ev : ServerEvent) (h : c ≠ cid) :
    getKV c (s.send cid ev).tcp_clients = getKV c s.tcp_clients := by
  unfold Server.send
  cases hq : getKV cid s.tcp_clients with
  | none => rfl
  | some q =>
    by_cases hc : q.closed
    · simp [hc]
    · simp only [hc, Bool.false_eq_true, if_false]
      exact getKV_setKV_ne _ s.tcp_clients h

theorem foldl_send_lobbies (g : Player → ServerEvent) (ps : List Player) (s : Server) :
    (ps.foldl (fun acc p => acc.send p.id (g p)) s).lobbies = s.lobbies := by
  induction ps generalizing s with
  | nil => rfl
  | cons p rest ih => rw [List.foldl_cons, ih, send_lobbies]

theorem getKV_foldl_send_notmem (g : Player → ServerEvent) (ps : List Player) (s : Server)
    (c : ClientId) (hc : ∀ p ∈ ps, p.id ≠ c) :
    getKV c (ps.foldl (fun acc p => acc.send p.id (g p)) s).tcp_clients =
      getKV c s.tcp_clients := by
  induction ps generalizing s with
  | nil => rfl
  | cons p rest ih =>
    rw [List.foldl_cons, ih _ fun x hx => hc x (List.mem_cons_of_mem p hx)]
    exact getKV_send_ne s _ fun hh => hc p (List.mem_cons_self p rest) hh.symm

/-! ## Characterization of `remove_from_lobby` and `assignScan` -/

theorem remove_from_lobby_append (cid : ClientId) (pre post : Lobbies) (lid : LobbyId)
    (mem : List Player)
    (hpre : ∀ e ∈ pre, ∀ p ∈ e.2, p.id ≠ cid)
    (hmem : ∃ p ∈ mem, p.id = cid) :
    remove_from_lobby cid (pre ++ (lid, mem) :: post) =
      (pre ++ (lid, mem.filter (fun p => p.id != cid)) :: post, some (lid, cid)) := by
  induction pre with
  | nil =>
    have hany : mem.any (fun p => p.id == cid) = true := by
      simp only [List.any_eq_true, beq_iff_eq]
      exact hmem
    simp only [List.nil_append, remove_from_lobby, hany, if_true]
  | cons e rest ih =>
    have hnone : e.2.any (fun p => p.id == cid) = false := by
      simp only [List.any_eq_false, beq_iff_eq]
      exact hpre e (List.mem_cons_self e rest)
    have ih' := ih fun x hx => hpre x (List.mem_cons_of_mem e hx)
    simp only [List.cons_append, remove_from_lobby, hnone, Bool.false_eq_true, if_false,
      List.append_eq]
    rw [ih']

theorem assignScan_none_iff (cid : ClientId) (ls : Lobbies) :
    assignScan cid ls = none ↔ ∀ e ∈ ls, MAX_LOBBY_SIZE ≤ e.2.length := by
  induction ls with
  | nil => simp [assignScan]
  | cons e rest ih =>
    constructor
    · intro h x hx
      rw [assignScan] at h
      by_cases he : e.2.length < MAX_LOBBY_SIZE
      · rw [if_pos he] at h
        exact absurd h (by simp)
      · rw [if_neg he] at h
        rcases List.mem_cons.mp hx with hxe | hxr
        · subst hxe
          omega
        · cases hs : assignScan cid rest with
          | none => exact ih.mp hs x hxr
          | some r =>
            rw [hs] at h
            exact absurd h (by simp)
    · intro h
      have he : ¬ e.2.length < MAX_LOBBY_SIZE := by
        have := h e (List.mem_cons_self e rest)
        omega
      rw [assignScan, if_neg he]
      have : assignScan cid rest = none :=
        ih.mpr fun x hx => h x (List.mem_cons_of_mem e hx)
      rw [this]

theorem assignScan_some (cid : ClientId) (ls ls' : Lobbies) (lid : LobbyId)
    (h : assignScan cid ls = some (ls', lid)) :
    ∃ pre ps post, ls = pre ++ (lid, ps) :: post ∧
      (∀ e ∈ pre, MAX_LOBBY_SIZE ≤ e.2.length) ∧
      ps.length < MAX_LOBBY_SIZE ∧
      ls' = pre ++ (lid, ps ++ [newPlayer cid]) :: post := by
  induction ls generalizing ls' with
  | nil => exact absurd h (by simp [assignScan])
  | cons e rest ih =>
    rw [assignScan] at h
    by_cases he : e.2.length < MAX_LOBBY_SIZE
    · rw [if_pos he] at h
      injection h with h1
      injection h1 with ha hb
      refine ⟨[], e.2, rest, by simp [← hb], by simp, he, ?_⟩
      subst hb
      simp [← ha]
    · rw [if_neg he] at h
      cases hs : assignScan cid rest with
      | none =>
        rw [hs] at h
        exact absurd h (by simp)
      | some r =>
        rw [hs] at h
        injection h with h1
        injection h1 with ha hb
        obtain ⟨pre, ps, post, hdec, hpre, hps, hres⟩ := ih r.1 (by rw [hs, ← hb])
        refine ⟨e :: pre, ps, post, ?_, ?_, hps, ?_⟩
        · rw [hdec]
          rfl
        · intro x hx
          rcases List.mem_cons.mp hx with hxe | hxr
          · subst hxe
            omega
          · exact hpre x hxr
        · rw [← ha, hres]
          rfl

/-! ## Claim theorems -/

/-- C1: the claim says a `PositionReport` whose sender's lobby-peer has no
bound telemetry address yields zero relay datagrams and no error.  The code
disagrees: `handle_udp` calls `.unwrap()` on the missing address and panics,
killing the telemetry receive loop.  Concretely, with the sender `A` in a
lobby with `B` and only `A` bound, the relay produces no datagrams and the
panic flag is set. -/
theorem c1_posreport_unbound_peer_panics :
    relayPos
      { lobbies := [(0, [newPlayer "A", newPlayer "B"])],
        tcp_clients := [],
        udp_client_addrs := [("A", "addrA")] }
      "A" 5 7 = ([], true) := by
  rfl

/-- C2: the claim says an undecodable telemetry datagram is logged and the
receive loop continues.  The code disagrees: `handle_udp` propagates the
decode error with `?`, which ends the receive loop, so a later well-formed
datagram is never processed.  Concretely, a batch whose first datagram fails
to decode makes the whole loop return that error. -/
theorem c2_decode_failure_ends_udp_loop :
    udpLoop emptyServer
      [("addr1", Except.error "invalid json"),
       ("addr2", Except.ok (ClientEvent.UdpUpgrade "c"))] =
      Except.error "invalid json" := by
  rfl

/-- C7: the claim says the grace-delay sleep happens only after the write
lock is released.  The code disagrees: in the `Join` arm the `state.write()`
guard is still alive when `tokio::time::sleep` runs (it is dropped only at
the end of the match arm), so the trace of the full-lobby path executes the
sleep while the write lock is held. -/
theorem c7_sleep_runs_while_write_lock_held :
    lockHeldAtSleep (joinArmTrace true) false = true := by
  rfl

/-- C9: `Server::send` with an unknown session id, or with a closed outbound
queue, is a silent no-op: the state is returned unchanged (and the Rust
signature returns `()`, so no error can surface to the caller). -/
theorem c9_send_unknown_or_closed_is_noop (s : Server) (cid : ClientId) (ev : ServerEvent)
    (h : getKV cid s.tcp_clients = none ∨
      ∃ q, getKV cid s.tcp_clients = some q ∧ q.closed = true) :
    s.send cid ev = s := by
  unfold Server.send
  rcases h with h | ⟨q, hq, hc⟩
  · rw [h]
  · rw [hq]
    simp [hc]

/-- Witness for C9: a server knowing only client `"k"` with a closed queue;
sending to the unknown id `"u"` and to the closed queue `"k"` both leave the
state unchanged. -/
theorem c9_send_unknown_or_closed_is_noop_witness :
    Server.send
        { lobbies := [], tcp_clients := [("k", ⟨true, []⟩)], udp_client_addrs := [] }
        "u" ServerEvent.Wait =
      { lobbies := [], tcp_clients := [("k", ⟨true, []⟩)], udp_client_addrs := [] } ∧
    Server.send
        { lobbies := [], tcp_clients := [("k", ⟨true, []⟩)], udp_client_addrs := [] }
        "k" ServerEvent.Wait =
      { lobbies := [], tcp_clients := [("k", ⟨true, []⟩)], udp_client_addrs := [] } :=
  ⟨c9_send_unknown_or_closed_is_noop _ "u" _ (Or.inl (by decide)),
   c9_send_unknown_or_closed_is_noop _ "k" _ (Or.inr ⟨⟨true, []⟩, by decide, rfl⟩)⟩

/-- C4, counterexample: the claim says a lobby transitions to started exactly
once.  The code disagrees: after `c1` and `c2` fill lobby `0` (first
`Started` broadcast), `c1` departs and `c3` joins the same lobby, which is
full again, so the same lobby broadcasts `Started` a second time; `c2`'s
control queue ends up holding two `Started` messages for lobby `0`. -/
theorem c4_lobby_can_start_twice :
    startsFor 0
      (((getKV "c2"
            (runEvents emptyServer 0
              [SEvent.connect "c1", SEvent.join "c1", SEvent.connect "c2",
               SEvent.join "c2", SEvent.disconnect "c1", SEvent.connect "c3",
               SEvent.join "c3"]).1.tcp_clients).getD
          ⟨true, []⟩).msgs) = 2 := by
  rfl

/-- C4, amended: whenever a `Join` brings a lobby's membership to 2, every
member at that instant is sent a `Started` message listing both members
(each with `tag_count 0` and position `(0,0)`) and carrying, per recipient,
that recipient's own session id — but such an instant is not unique per
lobby: a member may depart and be replaced, making the same lobby start
again (see the counterexample). -/
theorem c4_full_join_broadcasts_start_to_both
    (s : Server) (cid : ClientId) (fresh lid : LobbyId) (m : Player)
    (qm qc : Queue) (ls' : Lobbies)
    (hassign : assign_to_lobby s.lobbies cid fresh = (ls', lid))
    (hmem : getKV lid ls' = some [m, newPlayer cid])
    (hmid : m.id ≠ cid)
    (hm_tag : m.it_count = 0)
    (hm_pos : m.position = { x := 0, y := 0 })
    (hqm : getKV m.id s.tcp_clients = some qm)
    (hqm_open : qm.closed = false)
    (hqc : getKV cid s.tcp_clients = some qc)
    (hqc_open : qc.closed = false) :
    getKV m.id (handleJoin s cid fresh).tcp_clients =
      some { qm with msgs := qm.msgs ++
        [ServerEvent.Start lid m.id [m, newPlayer cid]] } ∧
    getKV cid (handleJoin s cid fresh).tcp_clients =
      some { qc with msgs := qc.msgs ++
        [ServerEvent.Accept lid cid,
         ServerEvent.Start lid cid [m, newPlayer cid]] } ∧
    m.it_count = 0 ∧ m.position = { x := 0, y := 0 } ∧
    (newPlayer cid).it_count = 0 ∧ (newPlayer cid).position = { x := 0, y := 0 } := by
  have hlob2 : (({ s with lobbies := ls' } : Server).send cid
      (ServerEvent.Accept lid cid)).lobbies = ls' := send_lobbies _ _ _
  have hfull : is_full (({ s with lobbies := ls' } : Server).send cid
      (ServerEvent.Accept lid cid)).lobbies lid = true := by
    rw [hlob2]
    simp [is_full, hmem, MAX_LOBBY_SIZE]
  have hq2 : getKV cid (({ s with lobbies := ls' } : Server).send cid
      (ServerEvent.Accept lid cid)).tcp_clients =
      some { qc with msgs := qc.msgs ++ [ServerEvent.Accept lid cid] } :=
    getKV_send_self _ cid _ qc hqc hqc_open
  have hqm2 : getKV m.id (({ s with lobbies := ls' } : Server).send cid
      (ServerEvent.Accept lid cid)).tcp_clients = some qm := by
    rw [getKV_send_ne _ _ hmid]
    exact hqm
  refine ⟨?_, ?_, hm_tag, hm_pos, rfl, rfl⟩
  · simp only [handleJoin, hassign]
    rw [hfull]
    simp only [if_true, hlob2, hmem, Option.getD_some, List.foldl_cons, List.foldl_nil,
      newPlayer]
    rw [getKV_send_ne _ _ hmid]
    exact getKV_send_self _ _ _ qm hqm2 hqm_open
  · simp only [handleJoin, hassign]
    rw [hfull]
    simp only [if_true, hlob2, hmem, Option.getD_some, List.foldl_cons, List.foldl_nil,
      newPlayer]
    have houter := getKV_send_self
      ((({ s with lobbies := ls' } : Server).send cid
          (ServerEvent.Accept lid cid)).send m.id
        (ServerEvent.Start lid m.id [m, newPlayer cid]))
      cid (ServerEvent.Start lid (newPlayer cid).id [m, newPlayer cid])
      { qc with msgs := qc.msgs ++ [ServerEvent.Accept lid cid] }
      (by rw [getKV_send_ne _ _ (Ne.symm hmid)]; exact hq2) hqc_open
    simp only [newPlayer] at houter ⊢
    rw [houter]
    simp [List.append_assoc]

/-- Witness for the amended C4: client `"b"` joins the lobby `7` currently
holding only `"a"`; `"a"`'s queue receives the `Started` message carrying
`"a"`'s own id and both zero-initialized members. -/
theorem c4_full_join_broadcasts_start_to_both_witness :
    getKV "a"
        (handleJoin
          { lobbies := [(7, [newPlayer "a"])],
            tcp_clients := [("a", ⟨false, []⟩), ("b", ⟨false, []⟩)],
            udp_client_addrs := [] }
          "b" 9).tcp_clients =
      some ⟨false, [ServerEvent.Start 7 "a" [newPlayer "a", newPlayer "b"]]⟩ :=
  (c4_full_join_broadcasts_start_to_both
    { lobbies := [(7, [newPlayer "a"])],
      tcp_clients := [("a", ⟨false, []⟩), ("b", ⟨false, []⟩)],
      udp_client_addrs := [] }
    "b" 9 7 (newPlayer "a") ⟨false, []⟩ ⟨false, []⟩
    [(7, [newPlayer "a", newPlayer "b"])]
    (by decide) (by decide) (by decide) rfl rfl (by decide) rfl (by decide) rfl).1

/-- Helper: on a departure of `cid` found in lobby `lid` (and in no earlier
lobby in scan order), the control queues after cleanup are those obtained by
erasing `cid`'s registry entry and then broadcasting `Leave cid` to the
remaining members of that lobby — whether or not the lobby is then deleted. -/
theorem cleanup_tcp_eq (s : Server) (cid : ClientId) (lid : LobbyId)
    (pre post : Lobbies) (mem : List Player)
    (hls : s.lobbies = pre ++ (lid, mem) :: post)
    (hpre : ∀ e ∈ pre, ∀ p ∈ e.2, p.id ≠ cid)
    (hkeys : ∀ e ∈ pre, e.1 ≠ lid)
    (hcid : ∃ p ∈ mem, p.id = cid) :
    (cleanup s cid).tcp_clients =
      ((mem.filter (fun (p : Player) => p.id != cid)).foldl
        (fun (acc : Server) (p : Player) => acc.send p.id (ServerEvent.Leave cid))
        { s with tcp_clients := eraseKV cid s.tcp_clients,
                 lobbies := pre ++ (lid, mem.filter (fun (p : Player) => p.id != cid)) :: post
        }).tcp_clients := by
  simp only [cleanup, hls]
  rw [remove_from_lobby_append cid pre post lid mem hpre hcid]
  simp only [Server.broadcast]
  rw [getKV_append_first pre lid _ post hkeys]
  by_cases hemp : (mem.filter (fun (p : Player) => p.id != cid)).isEmpty
  · simp only [Option.getD_some, hemp, if_true]
  · simp only [Option.getD_some, hemp, Bool.false_eq_true, if_false]

/-- Helper: when the departing client was the only member of its lobby, the
lobby is deleted by cleanup. -/
theorem cleanup_empty_lobby_deleted (s : Server) (cid : ClientId) (lid : LobbyId)
    (pre post : Lobbies) (mem : List Player)
    (hls : s.lobbies = pre ++ (lid, mem) :: post)
    (hpre : ∀ e ∈ pre, ∀ p ∈ e.2, p.id ≠ cid)
    (hkeys : ∀ e ∈ pre, e.1 ≠ lid)
    (hcid : ∃ p ∈ mem, p.id = cid)
    (hempty : mem.filter (fun (p : Player) => p.id != cid) = []) :
    getKV lid (cleanup s cid).lobbies = none := by
  simp only [cleanup, hls]
  rw [remove_from_lobby_append cid pre post lid mem hpre hcid]
  simp only [Server.broadcast]
  rw [getKV_append_first pre lid _ post hkeys]
  simp only [hempty, Option.getD_some, List.isEmpty_nil, if_true, List.foldl_nil]
  exact getKV_eraseKV_self lid _

/-- C5: on departure of a session found in lobby `lid` (first in scan order):
if it was the lobby's only member, the lobby is deleted and no queue receives
anything (the registry merely loses the departed entry); if one other member
remains, that member's open queue receives exactly one `MemberLeft`
(`ServerEvent.Leave`) carrying the departed session's id, and every other
client's queue is untouched. -/
theorem c5_departure_memberleft_semantics (s : Server) (cid : ClientId) (lid : LobbyId)
    (pre post : Lobbies) (mem : List Player)
    (hls : s.lobbies = pre ++ (lid, mem) :: post)
    (hpre : ∀ e ∈ pre, ∀ p ∈ e.2, p.id ≠ cid)
    (hkeys : ∀ e ∈ pre, e.1 ≠ lid)
    (hcid : ∃ p ∈ mem, p.id = cid) :
    (∀ m : Player, mem = [m] → m.id = cid →
      getKV lid (cleanup s cid).lobbies = none ∧
      (cleanup s cid).tcp_clients = eraseKV cid s.tcp_clients) ∧
    (∀ (r : Player) (q : Queue),
      mem.filter (fun (p : Player) => p.id != cid) = [r] →
      getKV r.id s.tcp_clients = some q → q.closed = false →
      getKV r.id (cleanup s cid).tcp_clients =
        some { q with msgs := q.msgs ++ [ServerEvent.Leave cid] } ∧
      ∀ c : ClientId, c ≠ cid → c ≠ r.id →
        getKV c (cleanup s cid).tcp_clients = getKV c s.tcp_clients) := by
  have htcp := cleanup_tcp_eq s cid lid pre post mem hls hpre hkeys hcid
  constructor
  · intro m hm hmid2
    have hfil : mem.filter (fun (p : Player) => p.id != cid) = [] := by
      subst hm
      simp [hmid2]
    refine ⟨cleanup_empty_lobby_deleted s cid lid pre post mem hls hpre hkeys hcid hfil, ?_⟩
    rw [htcp, hfil]
    rfl
  · intro r q hfil hq hopen
    have hrid : r.id ≠ cid := by
      have hrmem : r ∈ mem.filter (fun (p : Player) => p.id != cid) := by
        rw [hfil]
        exact List.mem_singleton.mpr rfl
      have hb := (List.mem_filter.mp hrmem).2
      simpa [bne_iff_ne] using hb
    constructor
    · rw [htcp, hfil]
      simp only [List.foldl_cons, List.foldl_nil]
      exact getKV_send_self _ _ _ q
        (show getKV r.id (eraseKV cid s.tcp_clients) = some q by
          rw [getKV_eraseKV_ne _ hrid]
          exact hq)
        hopen
    · intro c hc hcr
      rw [htcp, hfil]
      simp only [List.foldl_cons, List.foldl_nil]
      rw [getKV_send_ne _ _ hcr]
      show getKV c (eraseKV cid s.tcp_clients) = getKV c s.tcp_clients
      exact getKV_eraseKV_ne _ hc

/-- Witness for C5: in a server whose lobby `3` holds only `"a"` (plus an
unrelated registered client `"z"`), `"a"`'s departure deletes lobby `3` and
sends nothing; in a server whose lobby `3` holds `"a"` and `"b"`, `"a"`'s
departure puts exactly one `Leave "a"` in `"b"`'s queue. -/
theorem c5_departure_memberleft_semantics_witness :
    (getKV 3
        (cleanup
          { lobbies := [(3, [newPlayer "a"])],
            tcp_clients := [("a", ⟨false, []⟩), ("z", ⟨false, []⟩)],
            udp_client_addrs := [] } "a").lobbies = none ∧
      (cleanup
          { lobbies := [(3, [newPlayer "a"])],
            tcp_clients := [("a", ⟨false, []⟩), ("z", ⟨false, []⟩)],
            udp_client_addrs := [] } "a").tcp_clients =
        eraseKV "a" [("a", ⟨false, []⟩), ("z", ⟨false, []⟩)]) ∧
    getKV "b"
        (cleanup
          { lobbies := [(3, [newPlayer "a", newPlayer "b"])],
            tcp_clients := [("a", ⟨false, []⟩), ("b", ⟨false, []⟩)],
            udp_client_addrs := [] } "a").tcp_clients =
      some ⟨false, [ServerEvent.Leave "a"]⟩ :=
  ⟨(c5_departure_memberleft_semantics
      { lobbies := [(3, [newPlayer "a"])],
        tcp_clients := [("a", ⟨false, []⟩), ("z", ⟨false, []⟩)],
        udp_client_addrs := [] }
      "a" 3 [] [] [newPlayer "a"] rfl (by simp) (by simp)
      ⟨newPlayer "a", by simp [newPlayer]⟩).1
    (newPlayer "a") rfl rfl,
   ((c5_departure_memberleft_semantics
      { lobbies := [(3, [newPlayer "a", newPlayer "b"])],
        tcp_clients := [("a", ⟨false, []⟩), ("b", ⟨false, []⟩)],
        udp_client_addrs := [] }
      "a" 3 [] [] [newPlayer "a", newPlayer "b"] rfl (by simp) (by simp)
      ⟨newPlayer "a", by simp [newPlayer]⟩).2
    (newPlayer "b") ⟨false, []⟩ (by decide) (by decide) rfl).1⟩

/-- C10: the departing session is removed from its lobby and from the
control-queue registry before the `Leave` broadcast runs, so after cleanup
the departed id has no registry entry at all (it can never receive a
`MemberLeft` carrying its own id), and the queue of every client other than
the remaining members of that lobby is completely untouched: the broadcast
reaches only the remaining members. -/
theorem c10_memberleft_only_to_remaining_members (s : Server) (cid : ClientId)
    (lid : LobbyId) (pre post : Lobbies) (mem : List Player)
    (hls : s.lobbies = pre ++ (lid, mem) :: post)
    (hpre : ∀ e ∈ pre, ∀ p ∈ e.2, p.id ≠ cid)
    (hkeys : ∀ e ∈ pre, e.1 ≠ lid)
    (hcid : ∃ p ∈ mem, p.id = cid) :
    getKV cid (cleanup s cid).tcp_clients = none ∧
    ∀ c : ClientId, c ≠ cid →
      (∀ p ∈ mem.filter (fun (p : Player) => p.id != cid), p.id ≠ c) →
      getKV c (cleanup s cid).tcp_clients = getKV c s.tcp_clients := by
  have htcp := cleanup_tcp_eq s cid lid pre post mem hls hpre hkeys hcid
  have hremids : ∀ p ∈ mem.filter (fun (p : Player) => p.id != cid), p.id ≠ cid := by
    intro p hp
    have hb := (List.mem_filter.mp hp).2
    simpa [bne_iff_ne] using hb
  constructor
  · rw [htcp]
    rw [getKV_foldl_send_notmem _ _ _ cid hremids]
    show getKV cid (eraseKV cid s.tcp_clients) = none
    exact getKV_eraseKV_self cid _
  · intro c hc hnot
    rw [htcp]
    rw [getKV_foldl_send_notmem _ _ _ c hnot]
    show getKV c (eraseKV cid s.tcp_clients) = getKV c s.tcp_clients
    exact getKV_eraseKV_ne _ hc

/-- Witness for C10: `"a"` departs the lobby it shares with `"b"`; `"a"`'s
registry entry is gone and the unrelated client `"z"`'s queue is unchanged. -/
theorem c10_memberleft_only_to_remaining_members_witness :
    getKV "a"
        (cleanup
          { lobbies := [(3, [newPlayer "a", newPlayer "b"])],
            tcp_clients := [("a", ⟨false, []⟩), ("b", ⟨false, []⟩), ("z", ⟨false, []⟩)],
            udp_client_addrs := [] } "a").tcp_clients = none ∧
    getKV "z"
        (cleanup
          { lobbies := [(3, [newPlayer "a", newPlayer "b"])],
            tcp_clients := [("a", ⟨false, []⟩), ("b", ⟨false, []⟩), ("z", ⟨false, []⟩)],
            udp_client_addrs := [] } "a").tcp_clients =
      getKV "z" [("a", (⟨false, []⟩ : Queue)), ("b", ⟨false, []⟩), ("z", ⟨false, []⟩)] :=
  ⟨(c10_memberleft_only_to_remaining_members
      { lobbies := [(3, [newPlayer "a", newPlayer "b"])],
        tcp_clients := [("a", ⟨false, []⟩), ("b", ⟨false, []⟩), ("z", ⟨false, []⟩)],
        udp_client_addrs := [] }
      "a" 3 [] [] [newPlayer "a", newPlayer "b"] rfl (by simp) (by simp)
      ⟨newPlayer "a", by simp [newPlayer]⟩).1,
   (c10_memberleft_only_to_remaining_members
      { lobbies := [(3, [newPlayer "a", newPlayer "b"])],
        tcp_clients := [("a", ⟨false, []⟩), ("b", ⟨false, []⟩), ("z", ⟨false, []⟩)],
        udp_client_addrs := [] }
      "a" 3 [] [] [newPlayer "a", newPlayer "b"] rfl (by simp) (by simp)
      ⟨newPlayer "a", by simp [newPlayer]⟩).2
    "z" (by decide) (by decide)⟩

/-- Invariant of an all-joins run: after `k` joins with fresh counter `n`,
every lobby id is below the counter, every lobby has 1 or 2 members, the
number of one-member lobbies is `k % 2`, and the number of lobbies is
`ceil(k/2) = (k+1)/2`. -/
def joinInv (k n : Nat) (ls : Lobbies) : Prop :=
  (∀ e ∈ ls, e.1 < n) ∧
  (∀ e ∈ ls, e.2.length = 1 ∨ e.2.length = 2) ∧
  ls.countP (fun (e : LobbyId × List Player) => e.2.length == 1) = k % 2 ∧
  ls.length = (k + 1) / 2

theorem joinInv_perm {k n : Nat} {ls ls' : Lobbies} (h : joinInv k n ls)
    (hp : List.Perm ls ls') : joinInv k n ls' := by
  obtain ⟨hkeys, hsizes, hcount, hlen⟩ := h
  refine ⟨?_, ?_, ?_, ?_⟩
  · intro e he
    exact hkeys e (hp.mem_iff.mpr he)
  · intro e he
    exact hsizes e (hp.mem_iff.mpr he)
  · rw [← hp.countP_eq]
    exact hcount
  · rw [← hp.length_eq]
    exact hlen

theorem joinInv_assign {k n : Nat} {ls ls' : Lobbies} {cid : ClientId} {lid : LobbyId}
    (hinv : joinInv k n ls) (h : assign_to_lobby ls cid n = (ls', lid)) :
    joinInv (k + 1) (n + 1) ls' := by
  obtain ⟨hkeys, hsizes, hcount, hlen⟩ := hinv
  unfold assign_to_lobby at h
  cases hs : assignScan cid ls with
  | none =>
    rw [hs] at h
    injection h with h1 h2
    have hnm : ∀ e ∈ ls, e.1 ≠ n := fun e he => Nat.ne_of_lt (hkeys e he)
    have hins : insertKV n [newPlayer cid] ls = ls ++ [(n, [newPlayer cid])] :=
      insertKV_notmem _ _ _ hnm
    have hcnt0 : ls.countP (fun (e : LobbyId × List Player) => e.2.length == 1) = 0 := by
      rw [List.countP_eq_zero]
      intro e he
      have hge := (assignScan_none_iff cid ls).mp hs e he
      simp only [MAX_LOBBY_SIZE] at hge
      simp only [beq_iff_eq]
      omega
    have hk : k % 2 = 0 := by omega
    rw [← h1, hins]
    refine ⟨?_, ?_, ?_, ?_⟩
    · intro e he
      rcases List.mem_append.mp he with ho | hn
      · exact Nat.lt_succ_of_lt (hkeys e ho)
      · rw [List.mem_singleton.mp hn]
        exact Nat.lt_succ_self n
    · intro e he
      rcases List.mem_append.mp he with ho | hn
      · exact hsizes e ho
      · rw [List.mem_singleton.mp hn]
        left
        rfl
    · rw [List.countP_append, hcnt0]
      simp only [List.countP_cons, List.countP_nil]
      simp only [List.length_singleton, beq_self_eq_true, if_true]
      omega
    · rw [List.length_append, hlen]
      simp only [List.length_singleton]
      omega
  | some r =>
    rw [hs] at h
    subst h
    obtain ⟨pre, ps, post, hdec, hpreFull, hps, hres⟩ := assignScan_some cid ls ls' lid hs
    have hmemls : (lid, ps) ∈ ls := by
      rw [hdec]
      simp
    have hps1 : ps.length = 1 := by
      rcases hsizes _ hmemls with h1 | h2
      · exact h1
      · exfalso
        have h2' : ps.length = 2 := h2
        simp only [MAX_LOBBY_SIZE] at hps
        omega
    have hcl : ls.countP (fun (e : LobbyId × List Player) => e.2.length == 1) =
        pre.countP (fun (e : LobbyId × List Player) => e.2.length == 1) +
          (post.countP (fun (e : LobbyId × List Player) => e.2.length == 1) + 1) := by
      rw [hdec, List.countP_append, List.countP_cons]
      simp [hps1]
    have hcl' : ls'.countP (fun (e : LobbyId × List Player) => e.2.length == 1) =
        pre.countP (fun (e : LobbyId × List Player) => e.2.length == 1) +
          post.countP (fun (e : LobbyId × List Player) => e.2.length == 1) := by
      rw [hres, List.countP_append, List.countP_cons]
      simp [hps1]
    have h2 : k % 2 < 2 := Nat.mod_lt _ (by norm_num)
    have hsum : pre.countP (fun (e : LobbyId × List Player) => e.2.length == 1) +
        (post.countP (fun (e : LobbyId × List Player) => e.2.length == 1) + 1) = k % 2 := by
      rw [← hcl, hcount]
    have hcnt' : ls'.countP (fun (e : LobbyId × List Player) => e.2.length == 1) =
        (k + 1) % 2 := by
      rw [hcl']
      revert hsum
      generalize pre.countP (fun (e : LobbyId × List Player) => e.2.length == 1) = A
      generalize post.countP (fun (e : LobbyId × List Player) => e.2.length == 1) = B
      intro hsum
      omega
    have hk1 : k % 2 = 1 := by
      revert hsum
      generalize pre.countP (fun (e : LobbyId × List Player) => e.2.length == 1) = A
      generalize post.countP (fun (e : LobbyId × List Player) => e.2.length == 1) = B
      intro hsum
      omega
    have hmempre : ∀ e ∈ pre, e ∈ ls := by
      intro e he
      rw [hdec]
      exact List.mem_append.mpr (Or.inl he)
    have hmempost : ∀ e ∈ post, e ∈ ls := by
      intro e he
      rw [hdec]
      exact List.mem_append.mpr (Or.inr (List.mem_cons_of_mem _ he))
    refine ⟨?_, ?_, hcnt', ?_⟩
    · intro e he
      rw [hres] at he
      rcases List.mem_append.mp he with ho | hn
      · exact Nat.lt_succ_of_lt (hkeys e (hmempre e ho))
      · rcases List.mem_cons.mp hn with he2 | ho2
        · rw [he2]
          exact Nat.lt_succ_of_lt (hkeys (lid, ps) hmemls)
        · exact Nat.lt_succ_of_lt (hkeys e (hmempost e ho2))
    · intro e he
      rw [hres] at he
      rcases List.mem_append.mp he with ho | hn
      · exact hsizes e (hmempre e ho)
      · rcases List.mem_cons.mp hn with he2 | ho2
        · rw [he2]
          right
          simp [hps1]
        · exact hsizes e (hmempost e ho2)
    · have hlen' : ls'.length = ls.length := by
        rw [hres, hdec]
        simp
      rw [hlen', hlen]
      omega

theorem lrun_joins_inv {ls ls' : Lobbies} {n n' : Nat} {evs : List LEvent}
    (h : LRun ls n evs ls' n')
    (hall : ∀ e ∈ evs, ∃ c, e = LEvent.assign c) :
    ∀ k, joinInv k n ls → joinInv (k + evs.length) n' ls' := by
  induction h with
  | nil =>
    intro k hinv
    simpa using hinv
  | cons hstep hrest ih =>
    intro k hinv
    rename_i ls0 ls1 ls2 n0 n1 n2 e evs0
    obtain ⟨c, rfl⟩ := hall _ (List.mem_cons_self _ _)
    cases hstep with
    | assign hperm heq =>
      have hinv1 := joinInv_perm hinv hperm
      have hinv2 := joinInv_assign hinv1 heq
      have hrec := ih (fun x hx => hall x (List.mem_cons_of_mem _ hx)) (k + 1) hinv2
      rw [List.length_cons, show k + (evs0.length + 1) = k + 1 + evs0.length by omega]
      exact hrec

/-- C3: along any all-joins run of the matchmaker from the empty state
(under every possible hash-map iteration order, modelled by the permutation
choice in `LStep`), every lobby holds at most `MAX_LOBBY_SIZE = 2` members
and the number of lobbies equals `ceil(N/2) = (N+1)/2` for `N` joins.  Since
every prefix of such a run is itself such a run, the bound holds after each
assignment. -/
theorem c3_joins_only_sizes_and_lobby_count (evs : List LEvent) (ls : Lobbies) (n : Nat)
    (hrun : LRun [] 0 evs ls n)
    (hjoins : ∀ e ∈ evs, ∃ c, e = LEvent.assign c) :
    (∀ e ∈ ls, e.2.length ≤ MAX_LOBBY_SIZE) ∧
    ls.length = (evs.length + 1) / 2 := by
  have hinv0 : joinInv 0 0 [] := by
    refine ⟨by simp, by simp, by simp, by simp⟩
  have hinv := lrun_joins_inv hrun hjoins 0 hinv0
  obtain ⟨_, hsizes, _, hlen⟩ := hinv
  constructor
  · intro e he
    rcases hsizes e he with h1 | h2
    · rw [h1]
      simp [MAX_LOBBY_SIZE]
    · rw [h2]
      simp [MAX_LOBBY_SIZE]
  · simpa using hlen

/-- Witness for C3: the three-join run `c1, c2, c3` (identity iteration
order) produces two lobbies, `ceil(3/2) = 2`. -/
theorem c3_joins_only_sizes_and_lobby_count_witness :
    ([(0, [newPlayer "c1", newPlayer "c2"]), (2, [newPlayer "c3"])] : Lobbies).length =
      ([LEvent.assign "c1", LEvent.assign "c2", LEvent.assign "c3"].length + 1) / 2 := by
  have h1 : LStep [] 0 (LEvent.assign "c1") [(0, [newPlayer "c1"])] 1 :=
    LStep.assign (List.Perm.refl _) rfl
  have h2 : LStep [(0, [newPlayer "c1"])] 1 (LEvent.assign "c2")
      [(0, [newPlayer "c1", newPlayer "c2"])] 2 :=
    LStep.assign (List.Perm.refl _) rfl
  have h3 : LStep [(0, [newPlayer "c1", newPlayer "c2"])] 2 (LEvent.assign "c3")
      [(0, [newPlayer "c1", newPlayer "c2"]), (2, [newPlayer "c3"])] 3 :=
    LStep.assign (List.Perm.refl _) rfl
  have hrun : LRun [] 0 [LEvent.assign "c1", LEvent.assign "c2", LEvent.assign "c3"]
      [(0, [newPlayer "c1", newPlayer "c2"]), (2, [newPlayer "c3"])] 3 :=
    LRun.cons h1 (LRun.cons h2 (LRun.cons h3 LRun.nil))
  exact (c3_joins_only_sizes_and_lobby_count _ _ _ hrun
    (by intro e he; fin_cases he <;> exact ⟨_, rfl⟩)).2

/-- Helper: `find?` returns the distinguished element when everything before
it fails the predicate and it satisfies the predicate. -/
theorem find?_append_first {α : Type} (p : α → Bool) (pre : List α) (x : α) (post : List α)
    (hpre : ∀ e ∈ pre, ¬ p e = true) (hx : p x = true) :
    (pre ++ x :: post).find? p = some x := by
  induction pre with
  | nil => simp [List.find?_cons_of_pos, hx]
  | cons e rest ih =>
    rw [List.cons_append, List.find?_cons_of_neg]
    · exact ih fun y hy => hpre y (List.mem_cons_of_mem e hy)
    · simp only [Bool.not_eq_true]
      have := hpre e (List.mem_cons_self e rest)
      simpa using this

/-- C6, amended: the matchmaker appends the joining session to the first
lobby with free capacity in the lobby map's iteration order — the scan
position characterized by `List.find?` on the scanned list — and creates a
fresh lobby only when every lobby is full; one member is added either way.
Because a Rust `HashMap`'s iteration order is unspecified, the scanned order
is not determined by the history of joins and leaves, and neither is the
chosen lobby (see the counterexample theorem). -/
theorem c6_assign_first_free_in_scan_order (ls : Lobbies) (cid : ClientId) (fresh : LobbyId)
    (hf : ∀ e ∈ ls, e.1 ≠ fresh) :
    (assign_to_lobby ls cid fresh).2 =
      (((ls.find? (fun (e : LobbyId × List Player) =>
          e.2.length < MAX_LOBBY_SIZE)).map Prod.fst).getD fresh) ∧
    ((assign_to_lobby ls cid fresh).1.map
        (fun (e : LobbyId × List Player) => e.2.length)).sum =
      ((ls.map (fun (e : LobbyId × List Player) => e.2.length)).sum) + 1 := by
  unfold assign_to_lobby
  cases hs : assignScan cid ls with
  | none =>
    have hfull := (assignScan_none_iff cid ls).mp hs
    have hfind : ls.find? (fun (e : LobbyId × List Player) =>
        e.2.length < MAX_LOBBY_SIZE) = none := by
      rw [List.find?_eq_none]
      intro e he
      have := hfull e he
      simp only [decide_eq_true_eq]
      omega
    have hins : insertKV fresh [newPlayer cid] ls = ls ++ [(fresh, [newPlayer cid])] :=
      insertKV_notmem _ _ _ hf
    rw [hfind, hins]
    constructor
    · rfl
    · simp [List.map_append, List.sum_append, newPlayer]
  | some r =>
    obtain ⟨pre, ps, post, hdec, hpreFull, hps, hres⟩ :=
      assignScan_some cid ls r.1 r.2 (by rw [hs])
    have hfind : ls.find? (fun (e : LobbyId × List Player) =>
        e.2.length < MAX_LOBBY_SIZE) = some (r.2, ps) := by
      rw [hdec]
      refine find?_append_first _ pre (r.2, ps) post ?_ ?_
      · intro e he
        have := hpreFull e he
        simp only [decide_eq_true_eq]
        omega
      · simp only [decide_eq_true_eq]
        exact hps
    rw [hfind]
    constructor
    · rfl
    · rw [hres, hdec]
      simp only [List.map_append, List.sum_append, List.map_cons, List.sum_cons,
        List.length_append, List.length_singleton]
      ring

/-- Witness for the amended C6: the scan of `[(9, full), (1, one member)]`
for client `"z"` picks lobby `1`, the first with capacity in scan order, and
adds one member. -/
theorem c6_assign_first_free_in_scan_order_witness :
    (assign_to_lobby
        [(9, [newPlayer "u", newPlayer "v"]), (1, [newPlayer "w"])] "z" 5).2 =
      ((([(9, [newPlayer "u", newPlayer "v"]), (1, [newPlayer "w"])].find?
          (fun (e : LobbyId × List Player) =>
            e.2.length < MAX_LOBBY_SIZE)).map Prod.fst).getD 5) ∧
    ((assign_to_lobby
        [(9, [newPlayer "u", newPlayer "v"]), (1, [newPlayer "w"])] "z" 5).1.map
          (fun (e : LobbyId × List Player) => e.2.length)).sum =
      (([(9, [newPlayer "u", newPlayer "v"]), (1, [newPlayer "w"])].map
          (fun (e : LobbyId × List Player) => e.2.length)).sum) + 1 :=
  c6_assign_first_free_in_scan_order
    [(9, [newPlayer "u", newPlayer "v"]), (1, [newPlayer "w"])] "z" 5 (by decide)

/-- C6, counterexample: the claim says the matchmaker scans oldest-created
first, so the chosen lobby is a deterministic function of the prior joins
and leaves.  The code iterates a `HashMap`, whose order is unspecified: for
one and the same event history (four joins filling lobbies `0` and `2`,
then the departures of `"c1"` and `"c3"`), the run where the scan happens to
visit lobby `0` first puts `"c5"` into lobby `0`, while the run where it
visits lobby `2` (the younger lobby) first puts `"c5"` into lobby `2`. -/
theorem c6_matchmaking_not_deterministic :
    LRun [] 0
      [LEvent.assign "c1", LEvent.assign "c2", LEvent.assign "c3", LEvent.assign "c4",
       LEvent.leave "c1", LEvent.leave "c3", LEvent.assign "c5"]
      [(0, [newPlayer "c2", newPlayer "c5"]), (2, [newPlayer "c4"])] 5 ∧
    LRun [] 0
      [LEvent.assign "c1", LEvent.assign "c2", LEvent.assign "c3", LEvent.assign "c4",
       LEvent.leave "c1", LEvent.leave "c3", LEvent.assign "c5"]
      [(2, [newPlayer "c4", newPlayer "c5"]), (0, [newPlayer "c2"])] 5 ∧
    lobbyOf "c5" [(0, [newPlayer "c2", newPlayer "c5"]), (2, [newPlayer "c4"])] = some 0 ∧
    lobbyOf "c5" [(2, [newPlayer "c4", newPlayer "c5"]), (0, [newPlayer "c2"])] = some 2 := by
  have t1 : LStep [] 0 (LEvent.assign "c1") [(0, [newPlayer "c1"])] 1 :=
    LStep.assign (List.Perm.refl _) rfl
  have t2 : LStep [(0, [newPlayer "c1"])] 1 (LEvent.assign "c2")
      [(0, [newPlayer "c1", newPlayer "c2"])] 2 :=
    LStep.assign (List.Perm.refl _) rfl
  have t3 : LStep [(0, [newPlayer "c1", newPlayer "c2"])] 2 (LEvent.assign "c3")
      [(0, [newPlayer "c1", newPlayer "c2"]), (2, [newPlayer "c3"])] 3 :=
    LStep.assign (List.Perm.refl _) rfl
  have t4 : LStep [(0, [newPlayer "c1", newPlayer "c2"]), (2, [newPlayer "c3"])] 3
      (LEvent.assign "c4")
      [(0, [newPlayer "c1", newPlayer "c2"]), (2, [newPlayer "c3", newPlayer "c4"])] 4 :=
    LStep.assign (List.Perm.refl _) rfl
  have t5 : LStep
      [(0, [newPlayer "c1", newPlayer "c2"]), (2, [newPlayer "c3", newPlayer "c4"])] 4
      (LEvent.leave "c1")
      [(0, [newPlayer "c2"]), (2, [newPlayer "c3", newPlayer "c4"])] 4 :=
    LStep.leave (List.Perm.refl _) rfl
  have t6 : LStep [(0, [newPlayer "c2"]), (2, [newPlayer "c3", newPlayer "c4"])] 4
      (LEvent.leave "c3")
      [(0, [newPlayer "c2"]), (2, [newPlayer "c4"])] 4 :=
    LStep.leave (List.Perm.refl _) rfl
  have t7a : LStep [(0, [newPlayer "c2"]), (2, [newPlayer "c4"])] 4 (LEvent.assign "c5")
      [(0, [newPlayer "c2", newPlayer "c5"]), (2, [newPlayer "c4"])] 5 :=
    LStep.assign (List.Perm.refl _) rfl
  have t7b : LStep [(0, [newPlayer "c2"]), (2, [newPlayer "c4"])] 4 (LEvent.assign "c5")
      [(2, [newPlayer "c4", newPlayer "c5"]), (0, [newPlayer "c2"])] 5 :=
    LStep.assign (List.Perm.swap (2, [newPlayer "c4"]) (0, [newPlayer "c2"]) []) rfl
  refine ⟨?_, ?_, by decide, by decide⟩
  · exact LRun.cons t1 (LRun.cons t2 (LRun.cons t3 (LRun.cons t4 (LRun.cons t5
      (LRun.cons t6 (LRun.cons t7a LRun.nil))))))
  · exact LRun.cons t1 (LRun.cons t2 (LRun.cons t3 (LRun.cons t4 (LRun.cons t5
      (LRun.cons t6 (LRun.cons t7b LRun.nil))))))
